import Mathlib

/-!
Shallow embedding of the place-cell network core of `robo_replay_model.py`
(class `RoboReplay`): lattice topology, weight initialisation, the rate /
current / STP / inhibition update equations, the place-field drive
generator, and the explore/replay tick of `main`.  Machine floats are
modelled by exact fields (`ℚ` where no transcendental function occurs,
`ℝ` where `np.exp` does); Python ints by `ℤ`.
-/

namespace RoboReplay

/-- `self.network_size_pc = 100`. -/
def network_size_pc : ℕ := 100

/-- `no_cells_per_row = int(np.sqrt(self.network_size_pc)) = 10`. -/
def no_cells_per_row : ℤ := 10

/-- `is_computable(i, j)`: whether direction slot `j` (order
`[W NW N NE E SE S SW]`) is a valid neighbour slot for unit `i`.
Mirrors the four boundary exclusions of the source. -/
def is_computable (i j : ℤ) : Bool :=
  if i % no_cells_per_row = 0 ∧ (j = 0 ∨ j = 1 ∨ j = 7) then false  -- no W connections
  else if (0 ≤ i ∧ i < no_cells_per_row) ∧ (j = 1 ∨ j = 2 ∨ j = 3) then false  -- no N connections
  else if (i + 1) % no_cells_per_row = 0 ∧ (j = 3 ∨ j = 4 ∨ j = 5) then false  -- no E connections
  else if (100 - no_cells_per_row ≤ i ∧ i < 100) ∧ (j = 5 ∨ j = 6 ∨ j = 7) then false  -- no S connections
  else true

/-- Result of `neighbour_index`: the source either returns an int, or (for a
slot outside 0..7) returns the class object `IndexError` as a value, without
raising.  The second constructor models that returned class object. -/
inductive NeighbourResult where
  | ok (idx : ℤ) : NeighbourResult
  | indexErrorClass : NeighbourResult
deriving DecidableEq, Repr

/-- `neighbour_index(i, j)`: flat index of the neighbour of unit `i` in
direction slot `j`; the trailing `else` branch returns the `IndexError`
class itself (it does not raise). -/
def neighbour_index (i j : ℤ) : NeighbourResult :=
  if j = 0 then .ok (i - 1)                          -- W
  else if j = 1 then .ok (i - (no_cells_per_row + 1))  -- NW
  else if j = 2 then .ok (i - no_cells_per_row)        -- N
  else if j = 3 then .ok (i - (no_cells_per_row - 1))  -- NE
  else if j = 4 then .ok (i + 1)                       -- E
  else if j = 5 then .ok (i + (no_cells_per_row + 1))  -- SE
  else if j = 6 then .ok (i + no_cells_per_row)        -- S
  else if j = 7 then .ok (i + (no_cells_per_row - 1))  -- SW
  else .indexErrorClass

/-- The integer produced by `neighbour_index` on the eight real slots; the
default value for the sentinel constructor is never consulted by the callers,
which only pass `j` in `range(8)`. -/
def neighbour_val (i j : ℤ) : ℤ :=
  match neighbour_index i j with
  | .ok k => k
  | .indexErrorClass => 0

/-- NumPy 1-D indexing `v[k]` on a length-100 array: a negative `k` with
`-100 ≤ k` wraps to `k + 100`, which `k % 100` (mathematical mod) captures;
for `0 ≤ k < 100` it is plain indexing. -/
def pyGet {α : Type} (v : Fin 100 → α) (k : ℤ) : α :=
  v ⟨(k % 100).toNat, by omega⟩

/-- Number of valid direction slots of unit `i`. -/
def valid_count (i : ℤ) : ℕ :=
  (Finset.univ.filter (fun j : Fin 8 => is_computable i (j : ℤ) = true)).card

/-- The raw weight set by `initialise_weights` before row rescaling:
`weights[i, j] = 1.0` when the slot is computable, else the `np.zeros`
entry `0.0`. -/
def unnormalised_weight (i j : ℤ) : ℚ :=
  if is_computable i j then 1 else 0

/-- `sum(weights[i])` over the raw row of 8 entries. -/
def raw_row_sum (i : ℤ) : ℚ :=
  ∑ j : Fin 8, unnormalised_weight i (j : ℤ)

/-- `initialise_weights`: raw 0/1 weights, each row rescaled by
`weights[i] / sum(weights[i]) * 8`. -/
def initialise_weights : Fin 100 → Fin 8 → ℚ :=
  fun i j => unnormalised_weight (i : ℤ) (j : ℤ) / raw_row_sum (i : ℤ) * 8

/-- `compute_rates(currents)`: thresholded-linear transfer, using the
instance constants `self.a` and `self.epsilon` passed explicitly.  Below
threshold the rate is the `np.zeros` entry 0, otherwise
`min(a * (currents[i] - epsilon), 100)`. -/
def compute_rates {α : Type} [LinearOrderedField α] (a epsilon : α)
    (currents : Fin 100 → α) : Fin 100 → α :=
  fun i => if currents i < epsilon then 0 else min (a * (currents i - epsilon)) 100

/-- `update_currents(currents, delta_t, intrinsic_e, weights, rates, stp_d,
stp_f, I_inh, I_place, replay)`: the leaky integrator.  `sum_w_r_df` and `g`
are accumulated/set only inside the `if replay:` block, hence both are the
initial `0` in explore mode. -/
def update_currents {α : Type} [Field α] (currents : Fin 100 → α) (delta_t : α)
    (intrinsic_e : Fin 100 → α) (weights : Fin 100 → Fin 8 → α)
    (rates stp_d stp_f : Fin 100 → α) (I_inh : α) (I_place : Fin 100 → α)
    (replay : Bool) : Fin 100 → α :=
  let tau_I : α := 0.05
  fun i =>
    let sum_w_r_df : α :=
      if replay then
        ∑ j : Fin 8,
          (if is_computable (i : ℤ) (j : ℤ) then
            weights i j * pyGet rates (neighbour_val (i : ℤ) (j : ℤ))
              * pyGet stp_d (neighbour_val (i : ℤ) (j : ℤ))
              * pyGet stp_f (neighbour_val (i : ℤ) (j : ℤ))
          else 0)
      else 0
    let g : α := if replay then intrinsic_e i else 0
    currents i + (-currents i + g * sum_w_r_df - I_inh + I_place i) * delta_t / tau_I

/-- `update_I_inh(I_inh, delta_t, w_inh, rates)`: scalar leaky accumulator of
the summed population rates. -/
def update_I_inh {α : Type} [Field α] (I_inh delta_t w_inh : α)
    (rates : Fin 100 → α) : α :=
  let tau_inh : α := 0.05
  (-I_inh / tau_inh + w_inh * ∑ i : Fin 100, rates i) * delta_t + I_inh

/-- `update_STP(STP_D, STP_F, delta_t, rates)`: per-unit depression and
facilitation Euler steps (the out-of-bounds check only prints). -/
def update_STP {α : Type} [Field α] (STP_D STP_F : Fin 100 → α) (delta_t : α)
    (rates : Fin 100 → α) : (Fin 100 → α) × (Fin 100 → α) :=
  let tau_f : α := 1
  let tau_d : α := 1.5
  let U : α := 0.6
  (fun f => ((1 - STP_D f) / tau_d - rates f * STP_D f * STP_F f) * delta_t + STP_D f,
   fun f => ((U - STP_F f) / tau_f + U * (1 - STP_F f) * rates f) * delta_t + STP_F f)

noncomputable section

/-- `update_intrinsic_e(intrinsic_e, delta_t, rates)`: homeostatic gain Euler
step with sigmoidal potentiation, clamped to `sigma_max` from above. -/
def update_intrinsic_e (intrinsic_e : Fin 100 → ℝ) (delta_t : ℝ)
    (rates : Fin 100 → ℝ) : Fin 100 → ℝ :=
  let tau_e : ℝ := 10
  let sigma_ss : ℝ := 0.1
  let sigma_max : ℝ := 4
  let r_sigma : ℝ := 10
  let beta : ℝ := 1
  fun i =>
    let sigmoid := (sigma_max - 1) / (1 + Real.exp (-beta * (rates i - r_sigma)))
    let u := ((sigma_ss - intrinsic_e i) / tau_e + sigmoid) * delta_t + intrinsic_e i
    if u > sigma_max then sigma_max else u

/-- `compute_place_cell_activities(coord_x, coord_y, reward, movement)`:
Gaussian place-field drive.  The position is shifted to
`place = (coord_x + 1, coord_y + 1)`; the loop writes
`cells_activity[j][i]` from the field centre `(i/5 + 0.1, j/5 + 0.1)`, and
`flatten()` puts that entry at flat index `10*j + i`, so a flat index `k`
reads back with `i = k % 10`, `j = k / 10`. -/
def compute_place_cell_activities (coord_x coord_y : ℝ) (reward : ℕ)
    (movement : Bool) : Fin 100 → ℝ :=
  let d : ℝ := 0.1
  let no_cells_per_m : ℝ := 5  -- np.sqrt(100) / 2
  let C : ℝ := if movement = true ∨ reward ≠ 0 then 50 else 0
  fun k =>
    let i : ℕ := (k : ℕ) % 10
    let j : ℕ := (k : ℕ) / 10
    let px : ℝ := coord_x + 1
    let py : ℝ := coord_y + 1
    let cx : ℝ := (i : ℝ) / no_cells_per_m + 0.1
    let cy : ℝ := (j : ℝ) / no_cells_per_m + 0.1
    C * Real.exp (-1.0 / (2.0 * d ^ (2 : ℕ)) *
      ((px - cx) * (px - cx) + (py - cy) * (py - cy)))

/-- The external input handed to `update_currents` during a replay tick:
the frozen `self.I_place` while the episode-elapsed time `t_replay` is inside
one of the four strict windows, otherwise `np.zeros`. -/
def replay_cue (t_replay : ℝ) (I_place_frozen : Fin 100 → ℝ) : Fin 100 → ℝ :=
  if (1 < t_replay ∧ t_replay < 1.1) ∨ (3 < t_replay ∧ t_replay < 3.1) ∨
      (5 < t_replay ∧ t_replay < 5.1) ∨ (7 < t_replay ∧ t_replay < 7.1) then
    I_place_frozen
  else fun _ => 0

/-- `self.intrinsic_e_reset = np.ones(100) * 0.1`. -/
def intrinsic_e_reset : Fin 100 → ℝ := fun _ => 0.1

/-- `self.delta_t = 0.01`. -/
def delta_t : ℝ := 0.01

/-- `self.w_inh = 0.1`. -/
def w_inh : ℝ := 0.1

/-- The place-cell portion of the network state mutated by one pass of the
`while` loop of `main` (instance fields of `RoboReplay` plus the local
`t_replay`). -/
structure PCState where
  rates : Fin 100 → ℝ
  currents : Fin 100 → ℝ
  intrinsic_e : Fin 100 → ℝ
  stp_d : Fin 100 → ℝ
  stp_f : Fin 100 → ℝ
  I_place : Fin 100 → ℝ
  I_inh : ℝ
  replay : Bool
  t_replay : ℝ

/-- The fixed weight table used every tick (`self.network_weights`), read in
`ℝ` for the state transition. -/
def network_weights_R : Fin 100 → Fin 8 → ℝ :=
  fun i j => ((initialise_weights i j : ℚ) : ℝ)

/-- One pass of the place-cell update section of `main`'s loop: explore
branch when `reward_val == 0` (replay flag and `t_replay` cleared, currents
updated without the recurrent term, fresh place-field drive), otherwise the
replay branch (`t_replay` advanced, scheduled cue, recurrent term enabled,
and — when `t_replay` has crossed 9 s — the replay flag dropped and every
intrinsic gain reset to `self.intrinsic_e_reset`; `t_replay` itself keeps
its advanced value). -/
def tick (s : PCState) (reward_val : ℕ) (coord_x coord_y : ℝ)
    (movement : Bool) : PCState :=
  if reward_val = 0 then
    let currents := update_currents s.currents delta_t s.intrinsic_e
      network_weights_R s.rates s.stp_d s.stp_f s.I_inh s.I_place false
    { rates := compute_rates 1 2 currents
      currents := currents
      intrinsic_e := update_intrinsic_e s.intrinsic_e delta_t s.rates
      stp_d := (update_STP s.stp_d s.stp_f delta_t s.rates).1
      stp_f := (update_STP s.stp_d s.stp_f delta_t s.rates).2
      I_place := compute_place_cell_activities coord_x coord_y 0 movement
      I_inh := update_I_inh s.I_inh delta_t w_inh s.rates
      replay := false
      t_replay := 0 }
  else
    let t' := s.t_replay + delta_t
    let I_place := replay_cue t' s.I_place
    let currents := update_currents s.currents delta_t s.intrinsic_e
      network_weights_R s.rates s.stp_d s.stp_f s.I_inh I_place true
    { rates := compute_rates 1 2 currents
      currents := currents
      intrinsic_e :=
        if t' > 9 then intrinsic_e_reset
        else update_intrinsic_e s.intrinsic_e delta_t s.rates
      stp_d := (update_STP s.stp_d s.stp_f delta_t s.rates).1
      stp_f := (update_STP s.stp_d s.stp_f delta_t s.rates).2
      I_place := s.I_place
      I_inh := update_I_inh s.I_inh delta_t w_inh s.rates
      replay := if t' > 9 then false else true
      t_replay := t' }

/-- The four re-injection windows exactly as the specification words them:
half-open intervals that are closed on the right, `(1,1.1] ∪ (3,3.1] ∪
(5,5.1] ∪ (7,7.1]`.  Stated from the spec for comparison with `replay_cue`. -/
def spec_pulse_union (t : ℝ) : Prop :=
  (1 < t ∧ t ≤ 1.1) ∨ (3 < t ∧ t ≤ 3.1) ∨ (5 < t ∧ t ≤ 5.1) ∨ (7 < t ∧ t ≤ 7.1)

/-- The place-field drive exactly as the specification claim words it
(stated from the spec for comparison with `compute_place_cell_activities`):
the unit at grid row `r`, column `c` (flat index `k = 10*r + c`) has field
centre `(r/cellsPerMeter + 0.1, c/cellsPerMeter + 0.1)` and reads the value
`C * exp(-dist(position, centre)^2 / (2 d^2))` at the unshifted position. -/
def place_field_claimed (coord_x coord_y : ℝ) (reward : ℕ)
    (movement : Bool) : Fin 100 → ℝ :=
  let d : ℝ := 0.1
  let cellsPerMeter : ℝ := 5
  let C : ℝ := if movement = true ∨ reward ≠ 0 then 50 else 0
  fun k =>
    let r : ℕ := (k : ℕ) / 10
    let c : ℕ := (k : ℕ) % 10
    C * Real.exp (-(((coord_x - ((r : ℝ) / cellsPerMeter + 0.1)) ^ (2 : ℕ) +
        (coord_y - ((c : ℝ) / cellsPerMeter + 0.1)) ^ (2 : ℕ)) / (2 * d ^ (2 : ℕ))))

/-- A replay-mode state whose next tick crosses the 9 s boundary:
`t_replay = 8.995`, everything else at its initial value. -/
def crossing_state : PCState where
  rates := fun _ => 0
  currents := fun _ => 0
  intrinsic_e := fun _ => 0.1
  stp_d := fun _ => 1
  stp_f := fun _ => 0.6
  I_place := fun _ => 0
  I_inh := 0
  replay := true
  t_replay := 8.995

end

/-! ### Helper lemmas -/

/-- `pyGet` always reads some entry of the array. -/
lemma pyGet_mem {α : Type} (v : Fin 100 → α) (n : ℤ) :
    ∃ k : Fin 100, pyGet v n = v k :=
  ⟨_, rfl⟩

/-- Every unit has at least one valid direction slot. -/
lemma valid_count_pos : ∀ i : Fin 100, 0 < valid_count (i : ℤ) := by decide

/-- The raw row total counts the valid slots. -/
lemma raw_row_sum_eq (i : ℤ) : raw_row_sum i = (valid_count i : ℚ) := by
  simp only [raw_row_sum, unnormalised_weight, valid_count]
  exact Finset.sum_boole (fun j : Fin 8 => is_computable i (j : ℤ) = true) Finset.univ

/-- A valid slot's normalised weight is `8 / (number of valid slots)`. -/
lemma weight_valid_eq (i : Fin 100) (j : Fin 8)
    (h : is_computable (i : ℤ) (j : ℤ) = true) :
    initialise_weights i j = 8 / (valid_count (i : ℤ) : ℚ) := by
  rw [initialise_weights, unnormalised_weight, if_pos h, raw_row_sum_eq,
    div_mul_eq_mul_div, one_mul]

/-- An invalid slot's normalised weight is zero. -/
lemma weight_invalid_eq (i : Fin 100) (j : Fin 8)
    (h : is_computable (i : ℤ) (j : ℤ) = false) :
    initialise_weights i j = 0 := by
  rw [initialise_weights, unnormalised_weight, if_neg (by simp [h]), zero_div, zero_mul]

/-- A valid slot's weight is positive. -/
lemma weight_pos (i : Fin 100) (j : Fin 8)
    (h : is_computable (i : ℤ) (j : ℤ) = true) :
    0 < initialise_weights i j := by
  rw [weight_valid_eq i j h]
  have := valid_count_pos i
  positivity

/-- Every weight-table entry is nonnegative. -/
lemma weight_nonneg (i : Fin 100) (j : Fin 8) : 0 ≤ initialise_weights i j := by
  cases h : is_computable (i : ℤ) (j : ℤ)
  · rw [weight_invalid_eq i j h]
  · exact (weight_pos i j h).le

/-- Valid slots produce in-range neighbour indices (decidable check). -/
lemma neighbour_bounds : ∀ i : Fin 100, ∀ j : Fin 8,
    is_computable (i : ℤ) (j : ℤ) = true →
    (0 ≤ neighbour_val (i : ℤ) (j : ℤ) ∧ neighbour_val (i : ℤ) (j : ℤ) < 100) ∧
      neighbour_index (i : ℤ) (j : ℤ) =
        NeighbourResult.ok (neighbour_val (i : ℤ) (j : ℤ)) := by decide

/-! ### Claim theorems -/

/-- Claim C5: topology symmetry — whenever slot `j` is valid for unit `i`,
the produced neighbour `k` has the opposite slot `(j+4) mod 8` valid, and
that opposite slot resolves back to `i`; no one-directional edge exists. -/
theorem C5_topology_symmetry : ∀ i : Fin 100, ∀ j : Fin 8,
    is_computable (i : ℤ) (j : ℤ) = true →
    is_computable (neighbour_val (i : ℤ) (j : ℤ)) (((j : ℤ) + 4) % 8) = true ∧
      neighbour_val (neighbour_val (i : ℤ) (j : ℤ)) (((j : ℤ) + 4) % 8) = (i : ℤ) := by
  decide

/-- Witness for C5 at unit 0, slot 4 (east): the east neighbour 1 sees unit 0
back through slot 0 (west). -/
theorem C5_witness :
    is_computable (neighbour_val ((0 : Fin 100) : ℤ) ((4 : Fin 8) : ℤ))
        ((((4 : Fin 8) : ℤ) + 4) % 8) = true ∧
      neighbour_val (neighbour_val ((0 : Fin 100) : ℤ) ((4 : Fin 8) : ℤ))
        ((((4 : Fin 8) : ℤ) + 4) % 8) = ((0 : Fin 100) : ℤ) :=
  C5_topology_symmetry 0 4 (by decide)

/-- Claim C8: for a slot index outside 0..7 the source does not raise — it
returns the `IndexError` class object itself as an ordinary value (here the
`indexErrorClass` constructor), so resolution does not fail fast. -/
theorem C8_unknown_slot_returns_class :
    neighbour_index 0 8 = NeighbourResult.indexErrorClass ∧
      neighbour_index 0 (-1) = NeighbourResult.indexErrorClass := by
  decide

/-- Claim C9: under the `is_computable` guard every resolved neighbour index
lies in `[0, 100)`, `neighbour_index` takes its ordinary branch, and the
NumPy read performed by the recurrent sum hits exactly that in-range entry. -/
theorem C9_guarded_indexing : ∀ i : Fin 100, ∀ j : Fin 8,
    is_computable (i : ℤ) (j : ℤ) = true →
    (0 ≤ neighbour_val (i : ℤ) (j : ℤ) ∧ neighbour_val (i : ℤ) (j : ℤ) < 100) ∧
      neighbour_index (i : ℤ) (j : ℤ) =
        NeighbourResult.ok (neighbour_val (i : ℤ) (j : ℤ)) ∧
      ∀ (v : Fin 100 → ℚ), ∃ k : Fin 100,
        (k : ℤ) = neighbour_val (i : ℤ) (j : ℤ) ∧
          pyGet v (neighbour_val (i : ℤ) (j : ℤ)) = v k := by
  intro i j h
  obtain ⟨hb, hok⟩ := neighbour_bounds i j h
  refine ⟨hb, hok, fun v => ?_⟩
  refine ⟨⟨(neighbour_val (i : ℤ) (j : ℤ)).toNat, by omega⟩,
    by simpa using Int.toNat_of_nonneg hb.1, ?_⟩
  have hmod : (neighbour_val (i : ℤ) (j : ℤ) % 100).toNat =
      (neighbour_val (i : ℤ) (j : ℤ)).toNat := by omega
  exact congrArg v (Fin.ext hmod)

/-- Witness for C9 at unit 0, slot 4: the resolved neighbour is in range. -/
theorem C9_witness :
    0 ≤ neighbour_val ((0 : Fin 100) : ℤ) ((4 : Fin 8) : ℤ) ∧
      neighbour_val ((0 : Fin 100) : ℤ) ((4 : Fin 8) : ℤ) < 100 :=
  (C9_guarded_indexing 0 4 (by decide)).1

/-- Claim C6: every valid slot of unit `i` carries the positive weight
`8 / (number of valid slots of i)`, invalid slots carry 0, each row sums to
8, and a unit with fewer valid slots gets a strictly larger per-connection
weight. -/
theorem C6_weight_normalisation : ∀ i : Fin 100,
    (∀ j : Fin 8,
      (is_computable (i : ℤ) (j : ℤ) = true →
        initialise_weights i j = 8 / (valid_count (i : ℤ) : ℚ) ∧
          0 < initialise_weights i j) ∧
      (is_computable (i : ℤ) (j : ℤ) = false → initialise_weights i j = 0)) ∧
    (∑ j : Fin 8, initialise_weights i j = 8) ∧
    ∀ (i' : Fin 100) (j j' : Fin 8),
      is_computable (i : ℤ) (j : ℤ) = true →
      is_computable ((i' : Fin 100) : ℤ) ((j' : Fin 8) : ℤ) = true →
      valid_count (i : ℤ) < valid_count (i' : ℤ) →
      initialise_weights i' j' < initialise_weights i j := by
  intro i
  refine ⟨fun j => ⟨fun h => ⟨weight_valid_eq i j h, weight_pos i j h⟩,
    fun h => weight_invalid_eq i j h⟩, ?_, ?_⟩
  · have hpos := valid_count_pos i
    have hne : raw_row_sum (i : ℤ) ≠ 0 := by
      rw [raw_row_sum_eq]
      exact_mod_cast hpos.ne'
    calc ∑ j : Fin 8, initialise_weights i j
        = (∑ j : Fin 8, unnormalised_weight (i : ℤ) (j : ℤ)) / raw_row_sum (i : ℤ) * 8 := by
          simp only [initialise_weights]
          rw [← Finset.sum_mul, ← Finset.sum_div]
      _ = raw_row_sum (i : ℤ) / raw_row_sum (i : ℤ) * 8 := by rw [raw_row_sum]
      _ = 8 := by rw [div_self hne, one_mul]
  · intro i' j j' hj hj' hlt
    rw [weight_valid_eq i j hj, weight_valid_eq i' j' hj']
    have h1 : (0 : ℚ) < valid_count (i : ℤ) := by exact_mod_cast valid_count_pos i
    have h2 : (valid_count (i : ℤ) : ℚ) < valid_count ((i' : Fin 100) : ℤ) := by
      exact_mod_cast hlt
    exact div_lt_div_of_pos_left (by norm_num) h1 h2

/-- Witness for C6: the corner unit 0 (3 valid slots) gets weight `8/3` on
its east slot, strictly larger than the top-edge unit 8's west weight. -/
theorem C6_witness :
    initialise_weights 0 4 = 8 / (valid_count ((0 : Fin 100) : ℤ) : ℚ) ∧
      initialise_weights 8 0 < initialise_weights 0 4 :=
  ⟨(((C6_weight_normalisation 0).1 4).1 (by decide)).1,
    (C6_weight_normalisation 0).2.2 8 4 0 (by decide) (by decide) (by decide)⟩

/-- Claim C4: with `a = 1`, `epsilon = 2` the transfer function is exactly
`clamp(a*(current - epsilon), 0, 100)`: value 48 at current 50, 0 at
current 1 and below threshold, 100 at current 300, always within `[0, 100]`,
and monotone nondecreasing in the current. -/
theorem C4_transfer_function :
    (∀ (c : Fin 100 → ℚ) (i : Fin 100),
      compute_rates 1 2 c i = max 0 (min (1 * (c i - 2)) 100)) ∧
    compute_rates (1 : ℚ) 2 (fun _ => 50) 0 = 48 ∧
    (∀ (c : Fin 100 → ℚ) (i : Fin 100), c i < 2 → compute_rates 1 2 c i = 0) ∧
    compute_rates (1 : ℚ) 2 (fun _ => 1) 0 = 0 ∧
    compute_rates (1 : ℚ) 2 (fun _ => 300) 0 = 100 ∧
    (∀ (c : Fin 100 → ℚ) (i : Fin 100),
      0 ≤ compute_rates 1 2 c i ∧ compute_rates 1 2 c i ≤ 100) ∧
    (∀ (c d : Fin 100 → ℚ) (i : Fin 100), c i ≤ d i →
      compute_rates 1 2 c i ≤ compute_rates 1 2 d i) := by
  refine ⟨?_, ?_, ?_, ?_, ?_, ?_, ?_⟩
  · intro c i
    simp only [compute_rates, max_def, min_def, one_mul]
    split_ifs <;> first | rfl | linarith
  · norm_num [compute_rates, min_def]
  · intro c i h
    simp only [compute_rates, if_pos h]
  · norm_num [compute_rates]
  · norm_num [compute_rates, min_def]
  · intro c i
    simp only [compute_rates]
    split_ifs with h
    · exact ⟨le_refl 0, by norm_num⟩
    · exact ⟨le_min (by linarith) (by norm_num), min_le_right _ _⟩
  · intro c d i h
    simp only [compute_rates, one_mul]
    split_ifs with h1 h2
    · exact le_refl 0
    · exact le_min (by linarith) (by norm_num)
    · linarith
    · exact min_le_min (by linarith) (le_refl _)

/-- Witness for C4: instances of the hypothesis-bearing conjuncts —
sub-threshold current 1.5 maps to 0, and monotonicity at 3 ≤ 7. -/
theorem C4_witness :
    compute_rates (1 : ℚ) 2 (fun _ => 1.5) 0 = 0 ∧
      compute_rates (1 : ℚ) 2 (fun _ => 3) 0 ≤ compute_rates (1 : ℚ) 2 (fun _ => 7) 0 :=
  ⟨C4_transfer_function.2.2.1 (fun _ => 1.5) 0 (by norm_num),
    C4_transfer_function.2.2.2.2.2.2 (fun _ => 3) (fun _ => 7) 0 (by norm_num)⟩

/-- One inhibition step with the program constants keeps nonnegativity:
`update_I_inh` at `delta_t = 0.01` has self-decay factor `0.8 ≥ 0`. -/
lemma update_I_inh_nonneg (I : ℚ) (r : Fin 100 → ℚ) (hI : 0 ≤ I)
    (hr : ∀ k, 0 ≤ r k) : 0 ≤ update_I_inh I 0.01 0.1 r := by
  have hs : 0 ≤ ∑ k : Fin 100, r k := Finset.sum_nonneg fun k _ => hr k
  simp only [update_I_inh]
  ring_nf
  linarith

/-- The transfer function never produces a negative rate. -/
lemma compute_rates_nonneg (c : Fin 100 → ℚ) (k : Fin 100) :
    0 ≤ compute_rates 1 2 c k := by
  simp only [compute_rates]
  split_ifs with h
  · exact le_refl 0
  · exact le_min (by linarith) (by norm_num)

/-- Folding inhibition steps over any tick sequence preserves `0 ≤ I_inh`. -/
lemma inh_fold_nonneg (cs : List (Fin 100 → ℚ)) : ∀ I : ℚ, 0 ≤ I →
    0 ≤ cs.foldl (fun I c => update_I_inh I 0.01 0.1 (compute_rates 1 2 c)) I := by
  induction cs with
  | nil => intro I hI; simpa using hI
  | cons c t ih =>
    intro I hI
    rw [List.foldl_cons]
    exact ih _ (update_I_inh_nonneg _ _ hI (compute_rates_nonneg c))

/-- Claim C10: one `update_I_inh` step with `delta_t = 0.01`,
`tau_inh = 0.05` (and the program weight `w_inh = 0.1`) maps a nonnegative
inhibition and nonnegative rates to a nonnegative value; `compute_rates`
always yields nonnegative rates; hence inhibition started at 0 stays
nonnegative after every tick. -/
theorem C10_inhibition_nonneg :
    (∀ (I : ℚ) (r : Fin 100 → ℚ), 0 ≤ I → (∀ k, 0 ≤ r k) →
      0 ≤ update_I_inh I 0.01 0.1 r) ∧
    (∀ (c : Fin 100 → ℚ) (k : Fin 100), 0 ≤ compute_rates 1 2 c k) ∧
    ∀ (cs : List (Fin 100 → ℚ)),
      0 ≤ cs.foldl (fun I c => update_I_inh I 0.01 0.1 (compute_rates 1 2 c)) 0 :=
  ⟨update_I_inh_nonneg, compute_rates_nonneg, fun cs => inh_fold_nonneg cs 0 (le_refl 0)⟩

/-- Witness for C10: a concrete inhibition step from 0 with unit rates. -/
theorem C10_witness : 0 ≤ update_I_inh 0 0.01 0.1 (fun _ : Fin 100 => (1 : ℚ)) :=
  C10_inhibition_nonneg.1 0 (fun _ => 1) (le_refl 0) (fun _ => zero_le_one)

/-- Explore-mode evaluation of the current update: no recurrent term. -/
lemma update_currents_false_eq (currents : Fin 100 → ℚ) (dt : ℚ)
    (e : Fin 100 → ℚ) (w : Fin 100 → Fin 8 → ℚ) (r d f : Fin 100 → ℚ)
    (I : ℚ) (P : Fin 100 → ℚ) (i : Fin 100) :
    update_currents currents dt e w r d f I P false i =
      currents i + (-currents i - I + P i) * dt / 0.05 := by
  simp only [update_currents, Bool.false_eq_true, if_false, zero_mul, mul_zero]
  ring

/-- Replay-mode evaluation of the current update: the recurrent term is the
intrinsic gain times the guarded neighbour sum. -/
lemma update_currents_true_eq (currents : Fin 100 → ℚ) (dt : ℚ)
    (e : Fin 100 → ℚ) (w : Fin 100 → Fin 8 → ℚ) (r d f : Fin 100 → ℚ)
    (I : ℚ) (P : Fin 100 → ℚ) (i : Fin 100) :
    update_currents currents dt e w r d f I P true i =
      currents i + (-currents i + e i * (∑ j : Fin 8,
        (if is_computable (i : ℤ) (j : ℤ) then
          w i j * pyGet r (neighbour_val (i : ℤ) (j : ℤ))
            * pyGet d (neighbour_val (i : ℤ) (j : ℤ))
            * pyGet f (neighbour_val (i : ℤ) (j : ℤ))
        else 0)) - I + P i) * dt / 0.05 := by
  simp only [update_currents, if_true]

/-- Claim C1 (counterexample): with the initialised weight table, all
neighbour rates 1 and all STP variables 1 (so unit 0's east neighbour has
nonzero rate and nonzero STP product — the claim's premise), but every
intrinsic gain 0, the replay-mode current update equals the explore-mode
one: the recurrent contribution is 0, refuting "nonzero whenever some valid
neighbour has nonzero rate and nonzero STP product". -/
theorem C1_counterexample :
    (is_computable ((0 : Fin 100) : ℤ) ((4 : Fin 8) : ℤ) = true ∧
      pyGet (fun _ : Fin 100 => (1 : ℚ)) (neighbour_val ((0 : Fin 100) : ℤ) ((4 : Fin 8) : ℤ)) ≠ 0 ∧
      pyGet (fun _ : Fin 100 => (1 : ℚ)) (neighbour_val ((0 : Fin 100) : ℤ) ((4 : Fin 8) : ℤ)) *
        pyGet (fun _ : Fin 100 => (1 : ℚ)) (neighbour_val ((0 : Fin 100) : ℤ) ((4 : Fin 8) : ℤ)) ≠ 0) ∧
    update_currents (fun _ => 0) 0.01 (fun _ => 0) initialise_weights (fun _ => 1)
        (fun _ => 1) (fun _ => 1) 0 (fun _ => 0) true 0 =
      update_currents (fun _ => 0) 0.01 (fun _ => 0) initialise_weights (fun _ => 1)
        (fun _ => 1) (fun _ => 1) 0 (fun _ => 0) false 0 := by
  refine ⟨⟨by decide, one_ne_zero, mul_ne_zero one_ne_zero one_ne_zero⟩, ?_⟩
  rw [update_currents_true_eq, update_currents_false_eq]
  simp

/-- Claim C1 (amended): in explore mode (`replay = False`) the current
update carries no recurrent term at all — it neither reads the weight
table, the rates, the STP variables nor the intrinsic gains; in replay mode
(`replay = True`, with the program's weight table and time step), the
recurrent contribution is nonzero — it strictly changes the update —
whenever unit `i` has a positive intrinsic gain, the rate and STP arrays
are nonnegative, and some valid neighbour has nonzero rate and nonzero STP
product. -/
theorem C1_mode_gating :
    (∀ (currents : Fin 100 → ℚ) (dt : ℚ) (e ealt : Fin 100 → ℚ)
        (w walt : Fin 100 → Fin 8 → ℚ) (r ralt d dalt f falt : Fin 100 → ℚ)
        (I : ℚ) (P : Fin 100 → ℚ) (i : Fin 100),
      update_currents currents dt e w r d f I P false i =
          currents i + (-currents i - I + P i) * dt / 0.05 ∧
        update_currents currents dt e w r d f I P false i =
          update_currents currents dt ealt walt ralt dalt falt I P false i) ∧
    (∀ (currents e r d f P : Fin 100 → ℚ) (I : ℚ) (i : Fin 100),
      0 < e i → (∀ k, 0 ≤ r k) → (∀ k, 0 ≤ d k) → (∀ k, 0 ≤ f k) →
      (∃ j : Fin 8, is_computable (i : ℤ) (j : ℤ) = true ∧
        pyGet r (neighbour_val (i : ℤ) (j : ℤ)) ≠ 0 ∧
        pyGet d (neighbour_val (i : ℤ) (j : ℤ)) *
          pyGet f (neighbour_val (i : ℤ) (j : ℤ)) ≠ 0) →
      update_currents currents 0.01 e initialise_weights r d f I P true i ≠
        update_currents currents 0.01 e initialise_weights r d f I P false i) := by
  constructor
  · intro currents dt e ealt w walt r ralt d dalt f falt I P i
    constructor
    · exact update_currents_false_eq currents dt e w r d f I P i
    · rw [update_currents_false_eq, update_currents_false_eq]
  · intro currents e r d f P I i he hr hd hf ⟨jw, hjc, hjr, hjdf⟩
    have hterm_nonneg : ∀ j : Fin 8, 0 ≤
        (if is_computable (i : ℤ) (j : ℤ) then
          initialise_weights i j * pyGet r (neighbour_val (i : ℤ) (j : ℤ))
            * pyGet d (neighbour_val (i : ℤ) (j : ℤ))
            * pyGet f (neighbour_val (i : ℤ) (j : ℤ))
        else 0) := by
      intro j
      by_cases hcj : is_computable (i : ℤ) (j : ℤ) = true
      · rw [if_pos hcj]
        obtain ⟨k1, hk1⟩ := pyGet_mem r (neighbour_val (i : ℤ) (j : ℤ))
        obtain ⟨k2, hk2⟩ := pyGet_mem d (neighbour_val (i : ℤ) (j : ℤ))
        obtain ⟨k3, hk3⟩ := pyGet_mem f (neighbour_val (i : ℤ) (j : ℤ))
        rw [hk1, hk2, hk3]
        exact mul_nonneg (mul_nonneg (mul_nonneg (weight_nonneg i j) (hr k1)) (hd k2)) (hf k3)
      · rw [if_neg hcj]
    have hSpos : 0 < ∑ j : Fin 8,
        (if is_computable (i : ℤ) (j : ℤ) then
          initialise_weights i j * pyGet r (neighbour_val (i : ℤ) (j : ℤ))
            * pyGet d (neighbour_val (i : ℤ) (j : ℤ))
            * pyGet f (neighbour_val (i : ℤ) (j : ℤ))
        else 0) := by
      refine Finset.sum_pos' (fun j _ => hterm_nonneg j) ⟨jw, Finset.mem_univ jw, ?_⟩
      rw [if_pos hjc]
      obtain ⟨k1, hk1⟩ := pyGet_mem r (neighbour_val (i : ℤ) (jw : ℤ))
      have hr1 : 0 < pyGet r (neighbour_val (i : ℤ) (jw : ℤ)) := by
        rw [hk1]
        exact lt_of_le_of_ne (hr k1) (by rw [← hk1]; exact Ne.symm hjr)
      have hdf : 0 < pyGet d (neighbour_val (i : ℤ) (jw : ℤ)) *
          pyGet f (neighbour_val (i : ℤ) (jw : ℤ)) := by
        obtain ⟨k2, hk2⟩ := pyGet_mem d (neighbour_val (i : ℤ) (jw : ℤ))
        obtain ⟨k3, hk3⟩ := pyGet_mem f (neighbour_val (i : ℤ) (jw : ℤ))
        refine lt_of_le_of_ne ?_ (Ne.symm hjdf)
        rw [hk2, hk3]
        exact mul_nonneg (hd k2) (hf k3)
      calc (0 : ℚ) < (initialise_weights i jw * pyGet r (neighbour_val (i : ℤ) (jw : ℤ))) *
            (pyGet d (neighbour_val (i : ℤ) (jw : ℤ)) *
              pyGet f (neighbour_val (i : ℤ) (jw : ℤ))) :=
          mul_pos (mul_pos (weight_pos i jw hjc) hr1) hdf
        _ = initialise_weights i jw * pyGet r (neighbour_val (i : ℤ) (jw : ℤ))
            * pyGet d (neighbour_val (i : ℤ) (jw : ℤ))
            * pyGet f (neighbour_val (i : ℤ) (jw : ℤ)) := by ring
    have hES : 0 < e i * ∑ j : Fin 8,
        (if is_computable (i : ℤ) (j : ℤ) then
          initialise_weights i j * pyGet r (neighbour_val (i : ℤ) (j : ℤ))
            * pyGet d (neighbour_val (i : ℤ) (j : ℤ))
            * pyGet f (neighbour_val (i : ℤ) (j : ℤ))
        else 0) := mul_pos he hSpos
    have hlt : update_currents currents 0.01 e initialise_weights r d f I P false i <
        update_currents currents 0.01 e initialise_weights r d f I P true i := by
      rw [update_currents_false_eq, update_currents_true_eq]
      gcongr currents i + ?_ * 0.01 / 0.05
      linarith [hES]
    exact (ne_of_gt hlt)

/-- Witness for C1: with the initialised weights, unit rates, STP at their
initial values 1 and 0.6, and intrinsic gain 0.1, unit 0's replay-mode
update differs from its explore-mode update. -/
theorem C1_witness :
    update_currents (fun _ => 0) 0.01 (fun _ => 0.1) initialise_weights (fun _ => 1)
        (fun _ => 1) (fun _ => 0.6) 0 (fun _ => 0) true 0 ≠
      update_currents (fun _ => 0) 0.01 (fun _ => 0.1) initialise_weights (fun _ => 1)
        (fun _ => 1) (fun _ => 0.6) 0 (fun _ => 0) false 0 :=
  C1_mode_gating.2 (fun _ => 0) (fun _ => 0.1) (fun _ => 1) (fun _ => 1) (fun _ => 0.6)
    (fun _ => 0) 0 0 (by norm_num) (fun _ => by norm_num) (fun _ => by norm_num)
    (fun _ => by norm_num)
    ⟨4, by decide, one_ne_zero,
      mul_ne_zero one_ne_zero (show (0.6 : ℚ) ≠ 0 by norm_num)⟩

/-- Claim C2: during a replay episode the external cue handed to the current
update is nonzero only when the elapsed time lies in
`(1,1.1] ∪ (3,3.1] ∪ (5,5.1] ∪ (7,7.1]` and the frozen pattern is nonzero;
outside that union — in particular at 0.5 s, 2 s and 8 s — it is the
all-zero vector. -/
theorem C2_scheduled_reinjection :
    (∀ (t : ℝ) (f : Fin 100 → ℝ), ¬ spec_pulse_union t →
      replay_cue t f = fun _ => 0) ∧
    (∀ (t : ℝ) (f : Fin 100 → ℝ), replay_cue t f ≠ (fun _ => 0) →
      spec_pulse_union t ∧ f ≠ (fun _ => 0)) ∧
    ∀ f : Fin 100 → ℝ, replay_cue 0.5 f = (fun _ => 0) ∧
      replay_cue 2 f = (fun _ => 0) ∧ replay_cue 8 f = (fun _ => 0) := by
  have hsub : ∀ t : ℝ,
      ((1 < t ∧ t < 1.1) ∨ (3 < t ∧ t < 3.1) ∨ (5 < t ∧ t < 5.1) ∨
        (7 < t ∧ t < 7.1)) → spec_pulse_union t := by
    intro t h
    rcases h with ⟨a, b⟩ | ⟨a, b⟩ | ⟨a, b⟩ | ⟨a, b⟩
    · exact Or.inl ⟨a, b.le⟩
    · exact Or.inr (Or.inl ⟨a, b.le⟩)
    · exact Or.inr (Or.inr (Or.inl ⟨a, b.le⟩))
    · exact Or.inr (Or.inr (Or.inr ⟨a, b.le⟩))
  refine ⟨?_, ?_, ?_⟩
  · intro t f h
    rw [replay_cue, if_neg (fun hc => h (hsub t hc))]
  · intro t f hne
    by_cases hc : (1 < t ∧ t < 1.1) ∨ (3 < t ∧ t < 3.1) ∨ (5 < t ∧ t < 5.1) ∨
        (7 < t ∧ t < 7.1)
    · rw [replay_cue, if_pos hc] at hne
      exact ⟨hsub t hc, hne⟩
    · rw [replay_cue, if_neg hc] at hne
      exact absurd rfl hne
  · intro f
    refine ⟨?_, ?_, ?_⟩ <;> · rw [replay_cue, if_neg (by norm_num)]

/-- Witness for C2: at elapsed time 10 s, outside every window, the cue is
the zero vector even for a nonzero frozen pattern. -/
theorem C2_witness : replay_cue 10 (fun _ => 1) = (fun _ => 0) :=
  C2_scheduled_reinjection.1 10 (fun _ => 1) (by norm_num [spec_pulse_union])

/-- Claim C3 (counterexample): from a replay state at elapsed time 8.995 s,
the tick that crosses 9 s does not discard the episode's elapsed time —
`t_replay` keeps its advanced value 9.005 instead of being cleared. -/
theorem C3_counterexample :
    9 < crossing_state.t_replay + delta_t ∧
      (tick crossing_state 1 0 0 false).t_replay ≠ 0 := by
  constructor
  · norm_num [crossing_state, delta_t]
  · have h : (tick crossing_state 1 0 0 false).t_replay = 8.995 + 0.01 := by
      simp [tick, crossing_state, delta_t]
    rw [h]
    norm_num

/-- Claim C3 (amended): on the tick whose advanced elapsed time crosses 9 s
(with a nonzero reward signal), every intrinsic gain is reset to
`sigma_ss = 0.1` and the replay flag is dropped, so the next tick starts in
the explore state; the elapsed time, however, keeps its advanced value and
is cleared only by a later tick whose reward signal is 0 (the explore
branch, which also keeps the flag down). -/
theorem C3_episode_termination (s : PCState) (reward : ℕ) (x y : ℝ)
    (mv : Bool) :
    (reward ≠ 0 → 9 < s.t_replay + delta_t →
      (tick s reward x y mv).intrinsic_e = intrinsic_e_reset ∧
        (tick s reward x y mv).replay = false ∧
        (tick s reward x y mv).t_replay = s.t_replay + delta_t) ∧
    (reward = 0 →
      (tick s reward x y mv).replay = false ∧
        (tick s reward x y mv).t_replay = 0) := by
  constructor
  · intro hr h9
    rw [tick, if_neg hr]
    simp only [gt_iff_lt, if_pos h9]
    exact ⟨trivial, trivial, trivial⟩
  · intro hr
    rw [tick, if_pos hr]
    exact ⟨rfl, rfl⟩

/-- Witness for C3: the crossing tick from elapsed 8.995 s with reward 1. -/
theorem C3_witness :
    (tick crossing_state 1 0 0 false).intrinsic_e = intrinsic_e_reset ∧
      (tick crossing_state 1 0 0 false).replay = false ∧
      (tick crossing_state 1 0 0 false).t_replay =
        crossing_state.t_replay + delta_t :=
  (C3_episode_termination crossing_state 1 0 0 false).1 (by norm_num)
    (by norm_num [crossing_state, delta_t])

/-- Claim C7 (counterexample): at position `(-0.9, -0.7)` with the drive
active, unit 1 (row 0, column 1): the source computes
`50 * exp(-4)` — from the shifted position `(0.1, 0.3)` and centre
`(0.3, 0.1)` — while the claimed formula gives `50 * exp(-100)` — from the
unshifted position and the transposed centre `(0.1, 0.3)`. -/
theorem C7_counterexample :
    compute_place_cell_activities (-0.9) (-0.7) 0 true ⟨1, by norm_num⟩ ≠
      place_field_claimed (-0.9) (-0.7) 0 true ⟨1, by norm_num⟩ := by
  have hcode : compute_place_cell_activities (-0.9) (-0.7) 0 true ⟨1, by norm_num⟩ =
      50 * Real.exp (-4) := by
    simp only [compute_place_cell_activities]
    norm_num
  have hclaim : place_field_claimed (-0.9) (-0.7) 0 true ⟨1, by norm_num⟩ =
      50 * Real.exp (-100) := by
    simp only [place_field_claimed]
    norm_num
  rw [hcode, hclaim]
  intro h
  have := Real.exp_injective (mul_left_cancel₀ (by norm_num : (50 : ℝ) ≠ 0) h)
  norm_num at this

/-- Claim C7 (amended): the drive generator, at amplitude `C` (50 when the
agent moved or the reward is nonzero, 0 otherwise), gives the unit at flat
index `k` (grid row `k/10`, column `k%10`) the value
`C * exp(-dist((x+1, y+1), centre)^2 / (2 d^2))` with centre
`((k%10)/cellsPerMeter + 0.1, (k/10)/cellsPerMeter + 0.1)` — the position
is shifted by `(+1, +1)` and the centre coordinates come from the
column/row pair, not row/column; when the drive is inactive the output is
zero everywhere. -/
theorem C7_place_field (x y : ℝ) (reward : ℕ) (movement : Bool)
    (k : Fin 100) :
    compute_place_cell_activities x y reward movement k =
      (if movement = true ∨ reward ≠ 0 then (50 : ℝ) else 0) *
        Real.exp (-(((x + 1 - ((((k : ℕ) % 10 : ℕ) : ℝ) / 5 + 0.1)) ^ (2 : ℕ) +
          (y + 1 - ((((k : ℕ) / 10 : ℕ) : ℝ) / 5 + 0.1)) ^ (2 : ℕ)) /
            (2 * (0.1 : ℝ) ^ (2 : ℕ)))) ∧
    (movement = false → reward = 0 →
      compute_place_cell_activities x y reward movement k = 0) := by
  constructor
  · simp only [compute_place_cell_activities]
    congr 1
    congr 1
    ring
  · intro hm hr
    subst hm hr
    simp [compute_place_cell_activities]

/-- Witness for C7: inactive drive (no movement, zero reward) yields zero
output at unit 0. -/
theorem C7_witness : compute_place_cell_activities 0 0 0 false 0 = 0 :=
  (C7_place_field 0 0 0 false 0).2 rfl rfl

end RoboReplay
